import Mathlib

/-!
Verification of the batch reorganization engine of `tag2dir` (`app/server.py`,
`app/utils_scan.py`, `app/utils_metadata.py`) against its natural-language
specification.

The Python code is shallowly embedded: the filesystem is a pair of lists of
existing file paths and directory paths, fallible OS calls (`shutil.copy2`,
`os.remove`) are driven by an explicit fault oracle, and the Flask endpoint
bodies (`api_move`, `api_undo_move`, `api_scan`) become pure state-passing
functions.  Paths are plain strings, as in the source; `os.path` helpers
(`join`, `basename`, `dirname`, `splitext`) are re-implemented over the
character lists with CPython's semantics.  `os.path.abspath` is modeled as the
identity (the scanner already yields absolute paths, and path normalization is
orthogonal to every claim).  `os.makedirs` is modeled as infallible and as
registering only the leaf directory; the fatal make-destination-root error
path is likewise modeled as succeeding (no claim depends on it failing).
-/

namespace Tag2Dir

/-! ## Decimal representation of naturals (Python `str(i)` inside f-strings) -/

/-- Decimal digit to character, total with a junk default above 9 (only ever
used on values `< 10`). -/
def digitChar10 (d : Nat) : Char :=
  match d with
  | 0 => '0' | 1 => '1' | 2 => '2' | 3 => '3' | 4 => '4'
  | 5 => '5' | 6 => '6' | 7 => '7' | 8 => '8' | _ => '9'

/-- Little-endian base-10 digits, with structural fuel so the kernel can
evaluate it (fuel `n` always suffices since `n / 10 < n` for positive `n`). -/
def digitsRevAux : Nat → Nat → List Nat
  | _, 0 => []
  | 0, _+1 => []
  | fuel+1, n+1 => ((n+1) % 10) :: digitsRevAux fuel ((n+1) / 10)

/-- Little-endian base-10 digits of `n` (empty for `0`). -/
def digitsRevN (n : Nat) : List Nat := digitsRevAux n n

/-- Value of a little-endian digit list. -/
def digitsVal : List Nat → Nat
  | [] => 0
  | d :: ds => d + 10 * digitsVal ds

/-- Decimal string of a natural number, as Python's `str`. -/
def natRepr (n : Nat) : String :=
  if n = 0 then "0" else String.mk (((digitsRevN n).map digitChar10).reverse)

theorem digitsVal_digitsRevAux :
    ∀ (fuel n : Nat), n ≤ fuel → digitsVal (digitsRevAux fuel n) = n := by
  intro fuel
  induction fuel with
  | zero =>
    intro n hn
    interval_cases n
    rfl
  | succ fuel ih =>
    intro n hn
    match n with
    | 0 => rfl
    | n+1 =>
      have hdiv : (n+1) / 10 ≤ fuel := by
        have := Nat.div_lt_self (Nat.succ_pos n) (by decide : 1 < 10)
        omega
      simp only [digitsRevAux, digitsVal, ih ((n+1) / 10) hdiv]
      exact Nat.mod_add_div (n+1) 10

theorem digitsVal_digitsRevN (n : Nat) : digitsVal (digitsRevN n) = n :=
  digitsVal_digitsRevAux n n (Nat.le_refl n)

theorem digitsRevAux_lt10 :
    ∀ (fuel n : Nat), ∀ d ∈ digitsRevAux fuel n, d < 10 := by
  intro fuel
  induction fuel with
  | zero =>
    intro n d hd
    match n with
    | 0 => simp [digitsRevAux] at hd
    | _+1 => simp [digitsRevAux] at hd
  | succ fuel ih =>
    intro n d hd
    match n with
    | 0 => simp [digitsRevAux] at hd
    | m+1 =>
      simp only [digitsRevAux, List.mem_cons] at hd
      rcases hd with rfl | hd
      · exact Nat.mod_lt _ (by decide)
      · exact ih ((m+1) / 10) d hd

theorem digitsRevN_lt10 (n : Nat) : ∀ d ∈ digitsRevN n, d < 10 :=
  digitsRevAux_lt10 n n

theorem digitsRevN_injective : Function.Injective digitsRevN := by
  intro a b h
  have := digitsVal_digitsRevN a
  rw [h, digitsVal_digitsRevN] at this
  omega

theorem digitChar10_inj {d e : Nat} (hd : d < 10) (he : e < 10)
    (h : digitChar10 d = digitChar10 e) : d = e := by
  interval_cases d <;> interval_cases e <;> revert h <;> decide

theorem map_digitChar10_inj : ∀ {l1 l2 : List Nat},
    (∀ d ∈ l1, d < 10) → (∀ d ∈ l2, d < 10) →
    l1.map digitChar10 = l2.map digitChar10 → l1 = l2
  | [], [], _, _, _ => rfl
  | [], _ :: _, _, _, h => by simp at h
  | _ :: _, [], _, _, h => by simp at h
  | a :: l1, b :: l2, h1, h2, h => by
    simp only [List.map_cons, List.cons.injEq] at h
    have hab := digitChar10_inj (h1 a (by simp)) (h2 b (by simp)) h.1
    have hl := map_digitChar10_inj (fun d hd => h1 d (by simp [hd]))
      (fun d hd => h2 d (by simp [hd])) h.2
    rw [hab, hl]

theorem natRepr_injective : Function.Injective natRepr := by
  intro a b h
  unfold natRepr at h
  by_cases ha : a = 0 <;> by_cases hb : b = 0
  · omega
  · exfalso
    rw [if_pos ha, if_neg hb] at h
    have hdata : ("0" : String).data = ((digitsRevN b).map digitChar10).reverse :=
      congrArg String.data h
    have hrev : ((digitsRevN b).map digitChar10) = ['0'] := by
      have := congrArg List.reverse hdata
      simpa using this.symm
    match hdig : digitsRevN b with
    | [] => rw [hdig] at hrev; simp at hrev
    | [d] =>
      rw [hdig] at hrev
      simp only [List.map_cons, List.map_nil, List.cons.injEq] at hrev
      have hd10 : d < 10 := digitsRevN_lt10 b d (by rw [hdig]; simp)
      have : d = 0 := digitChar10_inj hd10 (by decide) (by simpa [digitChar10] using hrev.1)
      have hval := digitsVal_digitsRevN b
      rw [hdig, this] at hval
      simp [digitsVal] at hval
      exact hb hval.symm
    | d :: e :: rest =>
      rw [hdig] at hrev
      have := congrArg List.length hrev
      simp at this
  · exfalso
    rw [if_neg ha, if_pos hb] at h
    have hdata : ((digitsRevN a).map digitChar10).reverse = ("0" : String).data :=
      congrArg String.data h
    have hrev : ((digitsRevN a).map digitChar10) = ['0'] := by
      have := congrArg List.reverse hdata
      simpa using this
    match hdig : digitsRevN a with
    | [] => rw [hdig] at hrev; simp at hrev
    | [d] =>
      rw [hdig] at hrev
      simp only [List.map_cons, List.map_nil, List.cons.injEq] at hrev
      have hd10 : d < 10 := digitsRevN_lt10 a d (by rw [hdig]; simp)
      have : d = 0 := digitChar10_inj hd10 (by decide) (by simpa [digitChar10] using hrev.1)
      have hval := digitsVal_digitsRevN a
      rw [hdig, this] at hval
      simp [digitsVal] at hval
      exact ha hval.symm
    | d :: e :: rest =>
      rw [hdig] at hrev
      have := congrArg List.length hrev
      simp at this
  · rw [if_neg ha, if_neg hb] at h
    have hdata := congrArg String.data h
    simp only [String.data] at hdata
    have hrev := congrArg List.reverse hdata
    simp only [List.reverse_reverse] at hrev
    exact digitsRevN_injective (map_digitChar10_inj (digitsRevN_lt10 a) (digitsRevN_lt10 b) hrev)

/-! ## Filesystem model

`FS` lists the currently existing regular files and directories.
`os.path.exists` is true for either kind, `os.path.isfile` only for files
(`api_move`'s source check, `app/server.py:186`). -/

structure FS where
  files : List String
  dirs : List String
  deriving Repr, DecidableEq

/-- Model of `os.path.exists`. -/
def pathExists (fs : FS) (p : String) : Prop := p ∈ fs.files ∨ p ∈ fs.dirs

instance (fs : FS) (p : String) : Decidable (pathExists fs p) := by
  unfold pathExists; infer_instance

/-- Model of `os.path.isfile`. -/
def isFile (fs : FS) (p : String) : Prop := p ∈ fs.files

instance (fs : FS) (p : String) : Decidable (isFile fs p) := by
  unfold isFile; infer_instance

/-- Model of a successful `shutil.copy2 _ p`: the target file now exists. -/
def addFile (fs : FS) (p : String) : FS := { fs with files := p :: fs.files }

/-- Model of a successful `os.remove p`. -/
def removeFile (fs : FS) (p : String) : FS :=
  { fs with files := fs.files.filter (fun q => q ≠ p) }

/-- Model of `os.makedirs d exist_ok=True` (leaf directory only; intermediate
directories are irrelevant to every claim). -/
def makedirs (fs : FS) (d : String) : FS := { fs with dirs := d :: fs.dirs }

/-- Fault oracle: which `shutil.copy2`/`os.remove` calls raise. -/
structure Faults where
  copyFails : String → String → Bool
  removeFails : String → Bool

/-- The fault-free oracle: every copy and remove succeeds. -/
def noFaults : Faults := ⟨fun _ _ => false, fun _ => false⟩

/-! ## `os.path` helpers -/

/-- Characters after the last `/` (CPython `basename` on normalized paths). -/
def afterLastSlash (cs : List Char) : List Char :=
  cs.foldl (fun acc c => if c = '/' then [] else acc ++ [c]) []

/-- Model of `os.path.basename`. -/
def baseName (p : String) : String := String.mk (afterLastSlash p.data)

/-- Model of `os.path.dirname`. -/
def dirName (p : String) : String :=
  String.mk (p.data.take (p.data.length - (afterLastSlash p.data).length - 1))

/-- Model of `os.path.join` (absolute, slash-separated paths). -/
def pathJoin (a b : String) : String := a ++ "/" ++ b

/-- Model of `os.path.splitext`, following CPython: the extension starts at
the last dot of the basename, provided some earlier character of the basename
is not a dot (so names of only leading dots have no extension). -/
def splitext (p : String) : String × String :=
  let bs := afterLastSlash p.data
  let dirPart := p.data.take (p.data.length - bs.length)
  let rev := bs.reverse
  let revExt := rev.takeWhile (fun c => c ≠ '.')
  match rev.dropWhile (fun c => c ≠ '.') with
  | [] => (p, "")
  | _ :: restTail =>
    if restTail.all (fun c => c = '.') then (p, "")
    else (String.mk (dirPart ++ restTail.reverse), String.mk ('.' :: revExt.reverse))

/-! ## `unique_target` (`app/server.py:171` and `app/server.py:249`)

The Python `while True` probe terminates because the filesystem is finite;
the embedding runs it with fuel `|files| + |dirs| + 1`, which the pigeonhole
argument below shows is always enough to reach a non-existing candidate. -/

/-- Candidate `f"{base} ({i}){ext}"`. -/
def candPath (base ext : String) (i : Nat) : String :=
  base ++ " (" ++ natRepr i ++ ")" ++ ext

/-- The probing loop of `unique_target`. -/
def uniqueProbe (fs : FS) (base ext : String) : Nat → Nat → String
  | 0, i => candPath base ext i
  | fuel+1, i =>
    if pathExists fs (candPath base ext i) then uniqueProbe fs base ext fuel (i+1)
    else candPath base ext i

/-- Model of `unique_target`. -/
def unique_target (fs : FS) (p : String) : String :=
  if pathExists fs p then
    uniqueProbe fs (splitext p).1 (splitext p).2 (fs.files.length + fs.dirs.length + 1) 1
  else p

theorem candPath_inj (base ext : String) {i j : Nat}
    (h : candPath base ext i = candPath base ext j) : i = j := by
  have hdata := congrArg String.data h
  simp only [candPath, String.data_append, List.append_assoc] at hdata
  have h1 := List.append_cancel_left hdata
  have h2 := List.append_cancel_left h1
  have h3 := List.append_cancel_right h2
  exact natRepr_injective (String.ext h3)

theorem exists_free_cand (fs : FS) (base ext : String) :
    ∃ k, 1 ≤ k ∧ k < fs.files.length + fs.dirs.length + 2 ∧
      ¬ pathExists fs (candPath base ext k) := by
  by_contra hall
  push_neg at hall
  have hsub : (List.range (fs.files.length + fs.dirs.length + 1)).map
      (fun j => candPath base ext (j+1)) ⊆ fs.files ++ fs.dirs := by
    intro x hx
    simp only [List.mem_map, List.mem_range] at hx
    obtain ⟨j, hj, rfl⟩ := hx
    have := hall (j+1) (by omega) (by omega)
    rcases this with h | h
    · exact List.mem_append.mpr (Or.inl h)
    · exact List.mem_append.mpr (Or.inr h)
  have hinj : Function.Injective (fun j => candPath base ext (j+1)) := by
    intro a b hab
    have := candPath_inj base ext hab
    omega
  have hnd := (List.nodup_range (fs.files.length + fs.dirs.length + 1)).map hinj
  have hlen := (List.subperm_of_subset hnd hsub).length_le
  simp only [List.length_map, List.length_range, List.length_append] at hlen
  omega

theorem uniqueProbe_not_exists (fs : FS) (base ext : String) :
    ∀ (fuel i : Nat),
      (∃ k, i ≤ k ∧ k < i + fuel ∧ ¬ pathExists fs (candPath base ext k)) →
      ¬ pathExists fs (uniqueProbe fs base ext fuel i) := by
  intro fuel
  induction fuel with
  | zero =>
    intro i h
    obtain ⟨k, h1, h2, _⟩ := h
    omega
  | succ fuel ih =>
    intro i h
    simp only [uniqueProbe]
    split
    · next hex =>
      apply ih (i+1)
      obtain ⟨k, h1, h2, h3⟩ := h
      refine ⟨k, ?_, by omega, h3⟩
      rcases Nat.eq_or_lt_of_le h1 with rfl | hlt
      · exact absurd hex h3
      · omega
    · next hnex => exact hnex

/-- The probe of `unique_target` always lands on a non-existing path: no
existing file or directory is ever chosen as a move target. -/
theorem unique_target_not_exists (fs : FS) (p : String) :
    ¬ pathExists fs (unique_target fs p) := by
  unfold unique_target
  split
  · apply uniqueProbe_not_exists
    obtain ⟨k, h1, h2, h3⟩ := exists_free_cand fs (splitext p).1 (splitext p).2
    exact ⟨k, h1, by omega, h3⟩
  · next hnex => exact hnex

/-! ## `sanitize_name` (`app/server.py:190`) -/

/-- Characters kept by the regex `[^\w\-一-龥\. ]+` substitution:
word characters (`\w`, modeled over ASCII letters/digits/underscore plus the
CJK range the pattern repeats explicitly), hyphen, dot and space. -/
def allowedChar (c : Char) : Bool :=
  c.isAlpha || c.isDigit || c = '_' ||
    (0x4e00 ≤ c.toNat && c.toNat ≤ 0x9fa5) || c = '-' || c = '.' || c = ' '

/-- Model of Python's `str.strip()`: drop whitespace from both ends. -/
def pyStrip (s : String) : String :=
  String.mk (((s.data.dropWhile Char.isWhitespace).reverse.dropWhile Char.isWhitespace).reverse)

/-- Model of `sanitize_name`: filter the allowed characters, strip, and fall
back to the original name, then to `"Unknown"`, when empty (the Python
`out or person or "Unknown"`). -/
def sanitize_name (person : String) : String :=
  let out := pyStrip (String.mk (person.data.filter allowedChar))
  if out ≠ "" then out else if person ≠ "" then person else "Unknown"

/-! ## `api_move` (`app/server.py:152`) -/

structure PlanItem where
  path : String
  person : String
  deriving Repr, DecidableEq

/-- One `{"from": _, "to": _}` record (`from` is a Lean keyword, hence the
`Path` suffixes). -/
structure MoveRec where
  fromPath : String
  toPath : String
  deriving Repr, DecidableEq

/-- One `{"path": _, "error": _}` record. -/
structure ErrRec where
  path : String
  error : String
  deriving Repr, DecidableEq

/-- Message of the `OSError` raised by a failing `shutil.copy2` (its `str(e)`
text is modeled abstractly but injectively in the paths). -/
def copyErrMsg (src dst : String) : String := "copy failed: " ++ src ++ " -> " ++ dst

/-- Message of the `OSError` raised by a failing `os.remove`. -/
def removeErrMsg (p : String) : String := "remove failed: " ++ p

structure MoveSt where
  fs : FS
  moved : List MoveRec
  errors : List ErrRec
  deriving Repr, DecidableEq

/-- Body of the `for item in plan` loop of `api_move`: skip items with empty
path or person, record an error for missing source files, otherwise resolve
the target and (unless `dryRun`) copy-then-delete with rollback of the copy
when the delete fails. -/
def moveStep (faults : Faults) (destRoot : String) (dryRun : Bool)
    (st : MoveSt) (item : PlanItem) : MoveSt :=
  if item.path = "" ∨ item.person = "" then st
  else if ¬ isFile st.fs item.path then
    { st with errors := st.errors ++ [⟨item.path, "源文件不存在"⟩] }
  else
    let safePerson := sanitize_name item.person
    let targetDir := pathJoin destRoot safePerson
    let targetPath := unique_target st.fs (pathJoin targetDir (baseName item.path))
    if dryRun then { st with moved := st.moved ++ [⟨item.path, targetPath⟩] }
    else
      let fs1 := makedirs st.fs targetDir
      if item.path = targetPath then
        { st with fs := fs1, moved := st.moved ++ [⟨item.path, targetPath⟩] }
      else if faults.copyFails item.path targetPath then
        { st with fs := fs1, errors := st.errors ++ [⟨item.path, copyErrMsg item.path targetPath⟩] }
      else
        let fs2 := addFile fs1 targetPath
        if faults.removeFails item.path then
          let fs3 := if faults.removeFails targetPath then fs2 else removeFile fs2 targetPath
          { st with fs := fs3, errors := st.errors ++ [⟨item.path, removeErrMsg item.path⟩] }
        else
          { st with fs := removeFile fs2 item.path, moved := st.moved ++ [⟨item.path, targetPath⟩] }

/-- One recorded batch (`meta` keeps only `destRoot`, as in the source). -/
structure Batch where
  moved : List MoveRec
  errors : List ErrRec
  destRoot : String
  deriving Repr, DecidableEq

/-- `MOVE_HISTORY_MAX` (`app/server.py:17`). -/
def MOVE_HISTORY_MAX : Nat := 20

/-- History recording at the end of `api_move` (`app/server.py:219`):
append only for a non-dry-run call with at least one success, then keep the
last `MOVE_HISTORY_MAX` batches (`move_history[-MOVE_HISTORY_MAX:]`). -/
def recordHistory (history : List Batch) (dryRun : Bool)
    (moved : List MoveRec) (errors : List ErrRec) (destRoot : String) : List Batch :=
  if ¬ dryRun ∧ moved ≠ [] then
    if MOVE_HISTORY_MAX < (history ++ ([⟨moved, errors, destRoot⟩] : List Batch)).length then
      (history ++ ([⟨moved, errors, destRoot⟩] : List Batch)).drop
        ((history ++ ([⟨moved, errors, destRoot⟩] : List Batch)).length - MOVE_HISTORY_MAX)
    else history ++ ([⟨moved, errors, destRoot⟩] : List Batch)
  else history

structure MoveResp where
  ok : Bool
  error : Option String
  moved : List MoveRec
  errors : List ErrRec
  fs : FS
  history : List Batch
  deriving Repr, DecidableEq

/-- Response assembly of `api_move` from the final loop state. -/
def apiMoveResp (destRoot : String) (dryRun : Bool) (history : List Batch)
    (st : MoveSt) : MoveResp :=
  { ok := true, error := none, moved := st.moved, errors := st.errors, fs := st.fs,
    history := recordHistory history dryRun st.moved st.errors destRoot }

/-- Model of the `api_move` endpoint.  The destination root is created when
absent — note that this happens for dry runs too. -/
def apiMove (faults : Faults) (destRoot : String) (plan : List PlanItem)
    (dryRun : Bool) (fs : FS) (history : List Batch) : MoveResp :=
  if destRoot = "" then
    { ok := false, error := some "缺少目标根目录", moved := [], errors := [],
      fs := fs, history := history }
  else
    apiMoveResp destRoot dryRun history
      (plan.foldl (moveStep faults destRoot dryRun)
        ⟨if pathExists fs destRoot then fs else makedirs fs destRoot, [], []⟩)

/-! ## `api_undo_move` (`app/server.py:231`) -/

structure UndoSt where
  fs : FS
  undone : List MoveRec
  errors : List ErrRec
  deriving Repr, DecidableEq

/-- The restore step of one undo record once the restore path is decided:
`makedirs(dirname(restore))`, copy `dst -> restore`, then remove `dst` with
rollback of the restored copy when the remove fails. -/
def undoRestore (faults : Faults) (st : UndoSt) (dstPath restorePath : String) : UndoSt :=
  let fs1 := makedirs st.fs (dirName restorePath)
  if faults.copyFails dstPath restorePath then
    { st with fs := fs1, errors := st.errors ++ [⟨dstPath, copyErrMsg dstPath restorePath⟩] }
  else
    let fs2 := addFile fs1 restorePath
    if faults.removeFails dstPath then
      let fs3 := if faults.removeFails restorePath then fs2 else removeFile fs2 restorePath
      { st with fs := fs3, errors := st.errors ++ [⟨dstPath, removeErrMsg dstPath⟩] }
    else
      { st with fs := removeFile fs2 dstPath, undone := st.undone ++ [⟨dstPath, restorePath⟩] }

/-- Body of the `for rec in reversed(moved_list)` loop of `api_undo_move`. -/
def undoRec (faults : Faults) (strategy : String) (st : UndoSt) (rec : MoveRec) : UndoSt :=
  if rec.toPath = "" ∨ rec.fromPath = "" then st
  else if ¬ pathExists st.fs rec.toPath then
    { st with errors := st.errors ++ [⟨rec.toPath, "目标文件不存在，无法撤销"⟩] }
  else if pathExists st.fs rec.fromPath then
    if strategy = "unique" then
      undoRestore faults st rec.toPath (unique_target st.fs rec.fromPath)
    else
      { st with errors := st.errors ++ [⟨rec.fromPath, "源位置已存在同名文件，已跳过"⟩] }
  else undoRestore faults st rec.toPath rec.fromPath

structure UndoLoopSt where
  fs : FS
  undone : List MoveRec
  errors : List ErrRec
  history : List Batch
  undoneBatches : Nat
  deriving Repr, DecidableEq

/-- The `while count > 0 and move_history` loop: pop the most recent batch
and undo its records in reverse insertion order.  The popped batch is never
pushed back, even when some records error. -/
def undoLoop (faults : Faults) (strategy : String) : Nat → UndoLoopSt → UndoLoopSt
  | 0, st => st
  | c+1, st =>
    if h : st.history = [] then st
    else
      let batch := st.history.getLast h
      let inner := (batch.moved.reverse).foldl (undoRec faults strategy) ⟨st.fs, st.undone, st.errors⟩
      undoLoop faults strategy c
        ⟨inner.fs, inner.undone, inner.errors, st.history.dropLast, st.undoneBatches + 1⟩

/-- The records the loop attempts, in attempt order: most recent batch first,
each batch's `moved` list reversed. -/
def poppedRecords : Nat → List Batch → List MoveRec
  | 0, _ => []
  | c+1, hist =>
    if h : hist = [] then []
    else (hist.getLast h).moved.reverse ++ poppedRecords c hist.dropLast

structure UndoResp where
  ok : Bool
  error : Option String
  undone : List MoveRec
  errors : List ErrRec
  undoneBatches : Option Nat
  message : Option String
  fs : FS
  history : List Batch
  deriving Repr, DecidableEq

/-- ASCII lowercasing of one character (Python's `str.lower()` restricted to
ASCII, which covers the documented strategy strings). -/
def lowerChar (c : Char) : Char :=
  if 65 ≤ c.toNat ∧ c.toNat ≤ 90 then Char.ofNat (c.toNat + 32) else c

/-- Model of Python's `str.lower()` as used on the `strategy` parameter. -/
def toLowerModel (s : String) : String := String.mk (s.data.map lowerChar)

/-- Response assembly of `api_undo_move` from the final loop state: when no
batch was undone the response carries a message and no `undoneBatches` field
(modeled as `none`). -/
def apiUndoResp (st : UndoLoopSt) : UndoResp :=
  if st.undoneBatches = 0 then
    { ok := true, error := none, undone := [], errors := [], undoneBatches := none,
      message := some "无可撤销的历史记录", fs := st.fs, history := st.history }
  else
    { ok := true, error := none, undone := st.undone, errors := st.errors,
      undoneBatches := some st.undoneBatches, message := none,
      fs := st.fs, history := st.history }

/-- Model of the `api_undo_move` endpoint.  `count` is the parsed integer of
the request (rejected when non-positive); `strategy` is lowercased before
use. -/
def apiUndoMove (faults : Faults) (count : Int) (strategyRaw : String)
    (fs : FS) (history : List Batch) : UndoResp :=
  if count ≤ 0 then
    { ok := false, error := some "count 必须为正整数", undone := [], errors := [],
      undoneBatches := none, message := none, fs := fs, history := history }
  else
    apiUndoResp (undoLoop faults (toLowerModel strategyRaw) count.toNat ⟨fs, [], [], history, 0⟩)

/-! ## `api_scan` (`app/server.py:27`) and the metadata adapter -/

structure ScanItem where
  path : String
  people : List String
  tags : List String
  deriving Repr, DecidableEq

/-- Model of `extract_people_and_tags` (`app/utils_metadata.py:274`): the
exiftool backend is an oracle that either yields `(people, tags)` or fails;
every failure is swallowed and becomes `([], [])`. -/
def extract_people_and_tags (adapter : String → Option (List String × List String))
    (p : String) : List String × List String :=
  match adapter p with
  | some r => r
  | none => ([], [])

/-- Model of the scan loop of `api_scan`: one result per scanned path, with
`people or []` / `tags or []` as payload. -/
def apiScan (adapter : String → Option (List String × List String))
    (paths : List String) : List ScanItem :=
  paths.map fun p =>
    let r := extract_people_and_tags adapter p
    ⟨p, r.1, r.2⟩

/-! ## Helper lemmas -/

theorem isFile_removeFile (fs : FS) (q p : String) :
    isFile (removeFile fs q) p ↔ isFile fs p ∧ p ≠ q := by
  simp [isFile, removeFile, List.mem_filter]

theorem isFile_addFile (fs : FS) (q p : String) :
    isFile (addFile fs q) p ↔ p = q ∨ isFile fs p := by
  simp [isFile, addFile]

theorem isFile_makedirs (fs : FS) (d p : String) :
    isFile (makedirs fs d) p ↔ isFile fs p := Iff.rfl

theorem pathExists_makedirs (fs : FS) (d p : String) :
    pathExists (makedirs fs d) p ↔ p = d ∨ pathExists fs p := by
  simp [pathExists, makedirs]; tauto

theorem pathExists_addFile (fs : FS) (q p : String) :
    pathExists (addFile fs q) p ↔ p = q ∨ pathExists fs p := by
  simp [pathExists, addFile]; tauto

theorem pathExists_removeFile (fs : FS) (q p : String) :
    pathExists (removeFile fs q) p ↔ (isFile fs p ∧ p ≠ q) ∨ p ∈ fs.dirs := by
  simp [pathExists, removeFile, isFile, List.mem_filter]

/-- In a dry run the loop body never touches the filesystem. -/
theorem moveStep_dry_fs (faults : Faults) (destRoot : String) (st : MoveSt) (item : PlanItem) :
    (moveStep faults destRoot true st item).fs = st.fs := by
  unfold moveStep
  split
  · rfl
  · split
    · rfl
    · simp

/-- In a dry run the whole loop never touches the filesystem. -/
theorem moveFold_dry_fs (faults : Faults) (destRoot : String) :
    ∀ (plan : List PlanItem) (st : MoveSt),
      (plan.foldl (moveStep faults destRoot true) st).fs = st.fs := by
  intro plan
  induction plan with
  | nil => intro st; rfl
  | cons item rest ih =>
    intro st
    rw [List.foldl_cons, ih, moveStep_dry_fs]

/-- With no faults, a single loop iteration produces the same `moved` and
`errors` deltas whether or not it is a dry run (only the filesystem differs). -/
theorem moveStep_dry_real (destRoot : String) (st : MoveSt) (item : PlanItem) :
    (moveStep noFaults destRoot true st item).moved =
      (moveStep noFaults destRoot false st item).moved ∧
    (moveStep noFaults destRoot true st item).errors =
      (moveStep noFaults destRoot false st item).errors := by
  unfold moveStep
  split
  · exact ⟨rfl, rfl⟩
  · split
    · exact ⟨rfl, rfl⟩
    · simp [noFaults]
      split <;> simp

/-- Unfolding of `undoLoop`: it pops `min count |history|` batches from the
tail, folds `undoRec` over their records in reverse-chronological,
within-batch-reversed order (`poppedRecords`), and never pushes a popped
batch back. -/
theorem undoLoop_spec (faults : Faults) (strategy : String) :
    ∀ (c : Nat) (st : UndoLoopSt),
      undoLoop faults strategy c st =
        { fs := ((poppedRecords c st.history).foldl (undoRec faults strategy)
                  ⟨st.fs, st.undone, st.errors⟩).fs,
          undone := ((poppedRecords c st.history).foldl (undoRec faults strategy)
                  ⟨st.fs, st.undone, st.errors⟩).undone,
          errors := ((poppedRecords c st.history).foldl (undoRec faults strategy)
                  ⟨st.fs, st.undone, st.errors⟩).errors,
          history := st.history.take (st.history.length - min c st.history.length),
          undoneBatches := st.undoneBatches + min c st.history.length } := by
  intro c
  induction c with
  | zero =>
    intro st
    simp [undoLoop, poppedRecords]
  | succ c ih =>
    intro st
    obtain ⟨f, u, e, hist, n⟩ := st
    rw [undoLoop]
    split
    · next h =>
      simp only at h
      subst h
      simp [poppedRecords]
    · next h =>
      simp only at h
      rw [ih]
      rw [show poppedRecords (c+1) hist =
            (hist.getLast h).moved.reverse ++ poppedRecords c hist.dropLast from by
          rw [poppedRecords, dif_neg h]]
      rw [List.foldl_append]
      have hpos : 0 < hist.length := List.length_pos.mpr h
      have hlen : hist.dropLast.length = hist.length - 1 := List.length_dropLast hist
      simp only [UndoLoopSt.mk.injEq, hlen]
      refine ⟨trivial, trivial, trivial, ?_, by omega⟩
      rw [List.dropLast_eq_take, List.take_take]
      congr 1
      omega

/-- `poppedRecords` is exactly the flattening of the last `min count
|history|` batches, most recent first, each batch's `moved` list reversed. -/
theorem poppedRecords_flatten :
    ∀ (c : Nat) (hist : List Batch),
      poppedRecords c hist =
        (((hist.drop (hist.length - min c hist.length)).reverse).map
          (fun b => b.moved.reverse)).flatten := by
  intro c
  induction c with
  | zero => intro hist; simp [poppedRecords]
  | succ c ih =>
    intro hist
    by_cases h : hist = []
    · subst h; simp [poppedRecords]
    · have hpos : 0 < hist.length := List.length_pos.mpr h
      have hsplit := List.dropLast_append_getLast h
      have hlen : hist.dropLast.length = hist.length - 1 := List.length_dropLast hist
      have hidx : hist.length - min (c+1) hist.length =
          hist.dropLast.length - min c hist.dropLast.length := by omega
      have hdrop : hist.drop (hist.length - min (c+1) hist.length) =
          hist.dropLast.drop (hist.dropLast.length - min c hist.dropLast.length)
            ++ [hist.getLast h] :=
        calc hist.drop (hist.length - min (c+1) hist.length)
            = (hist.dropLast ++ [hist.getLast h]).drop
                (hist.dropLast.length - min c hist.dropLast.length) := by rw [hsplit, hidx]
          _ = hist.dropLast.drop (hist.dropLast.length - min c hist.dropLast.length)
                ++ [hist.getLast h] := List.drop_append_of_le_length (by omega)
      rw [poppedRecords, dif_neg h, ih, hdrop]
      rw [List.reverse_append]
      simp

/-- A single undo record with both paths set, its moved file still present and
its original location free restores `toPath` back to `fromPath` (fault-free
run): copy, delete, and one new `undone` entry. -/
theorem undoRec_success (strategy : String) (st : UndoSt) (rec : MoveRec)
    (h1 : rec.toPath ≠ "") (h2 : rec.fromPath ≠ "")
    (h3 : isFile st.fs rec.toPath) (h4 : ¬ pathExists st.fs rec.fromPath) :
    undoRec noFaults strategy st rec =
      { fs := removeFile (addFile (makedirs st.fs (dirName rec.fromPath)) rec.fromPath) rec.toPath,
        undone := st.undone ++ [⟨rec.toPath, rec.fromPath⟩],
        errors := st.errors } := by
  unfold undoRec undoRestore
  rw [if_neg (by simp [h1, h2]),
    if_neg (not_not_intro (show pathExists st.fs rec.toPath from Or.inl h3)), if_neg h4]
  simp [noFaults]

/-- The filesystem transformation of a fault-free sequence of successful undo
restores. -/
def undoFoldFS (fs : FS) (recs : List MoveRec) : FS :=
  recs.foldl
    (fun a r => removeFile (addFile (makedirs a (dirName r.fromPath)) r.fromPath) r.toPath) fs

theorem undoFoldFS_dirs : ∀ (recs : List MoveRec) (fs : FS) (p : String),
    p ∈ (undoFoldFS fs recs).dirs ↔
      p ∈ fs.dirs ∨ p ∈ recs.map (fun r => dirName r.fromPath) := by
  intro recs
  induction recs with
  | nil => intro fs p; simp [undoFoldFS]
  | cons r rest ih =>
    intro fs p
    rw [show undoFoldFS fs (r :: rest) =
        undoFoldFS (removeFile (addFile (makedirs fs (dirName r.fromPath)) r.fromPath) r.toPath)
          rest from rfl]
    rw [ih]
    simp [removeFile, addFile, makedirs]
    tauto

theorem undoFoldFS_isFile : ∀ (recs : List MoveRec) (fs : FS),
    (∀ r ∈ recs, ∀ s ∈ recs, r.fromPath ≠ s.toPath) →
    ∀ p, isFile (undoFoldFS fs recs) p ↔
      ((isFile fs p ∨ p ∈ recs.map (fun r => r.fromPath)) ∧
        p ∉ recs.map (fun r => r.toPath)) := by
  intro recs
  induction recs with
  | nil => intro fs _ p; simp [undoFoldFS]
  | cons r rest ih =>
    intro fs hcross p
    rw [show undoFoldFS fs (r :: rest) =
        undoFoldFS (removeFile (addFile (makedirs fs (dirName r.fromPath)) r.fromPath) r.toPath)
          rest from rfl]
    rw [ih _ (fun a ha b hb => hcross a (by simp [ha]) b (by simp [hb]))]
    have hfr : p ∈ rest.map (fun r => r.fromPath) → p ≠ r.toPath := by
      intro hp
      obtain ⟨s, hs, rfl⟩ := List.mem_map.mp hp
      exact hcross s (by simp [hs]) r (by simp)
    have hrr : r.fromPath ≠ r.toPath := hcross r (by simp) r (by simp)
    rw [isFile_removeFile, isFile_addFile, isFile_makedirs]
    simp only [List.map_cons, List.mem_cons]
    constructor
    · rintro ⟨hl, hnr⟩
      rcases hl with ⟨hpf, hpt⟩ | hpf
      · exact ⟨by tauto, by simp [hpt, hnr]⟩
      · exact ⟨Or.inr (Or.inr hpf), by simp [hfr hpf, hnr]⟩
    · rintro ⟨hl, hnr⟩
      simp only [not_or] at hnr
      rcases hl with hpf | hpf | hpf
      · exact ⟨Or.inl ⟨Or.inr hpf, hnr.1⟩, hnr.2⟩
      · exact ⟨Or.inl ⟨Or.inl hpf, by rw [hpf]; exact hrr⟩, hnr.2⟩
      · exact ⟨Or.inr hpf, hnr.2⟩

/-- A fault-free fold of `undoRec` over records whose moved files all exist,
whose original locations are all free, and whose paths do not interfere,
restores every record in list order and reports no error. -/
theorem undoFold_success (strategy : String) :
    ∀ (recs : List MoveRec) (st : UndoSt),
      (∀ r ∈ recs, r.toPath ≠ "" ∧ r.fromPath ≠ "") →
      (∀ r ∈ recs, isFile st.fs r.toPath) →
      (∀ r ∈ recs, ¬ pathExists st.fs r.fromPath) →
      recs.Pairwise (fun r s => r.toPath ≠ s.toPath ∧ r.fromPath ≠ s.fromPath) →
      (∀ r ∈ recs, ∀ s ∈ recs, r.fromPath ≠ s.toPath) →
      (∀ r ∈ recs, ∀ s ∈ recs, dirName r.fromPath ≠ s.fromPath) →
      recs.foldl (undoRec noFaults strategy) st =
        { fs := undoFoldFS st.fs recs,
          undone := st.undone ++ recs.map (fun r => ⟨r.toPath, r.fromPath⟩),
          errors := st.errors } := by
  intro recs
  induction recs with
  | nil => intro st _ _ _ _ _ _; simp [undoFoldFS]
  | cons r rest ih =>
    intro st h1 h2 h3 hpw hcross hdir
    have hpw' := List.pairwise_cons.mp hpw
    rw [List.foldl_cons,
      undoRec_success strategy st r (h1 r (by simp)).1 (h1 r (by simp)).2
        (h2 r (by simp)) (h3 r (by simp))]
    rw [ih _ (fun s hs => h1 s (by simp [hs]))
        (fun s hs => by
          simp only [isFile_removeFile, isFile_addFile, isFile_makedirs]
          exact ⟨Or.inr (h2 s (by simp [hs])), (hpw'.1 s hs).1.symm⟩)
        (fun s hs => by
          simp only [pathExists_removeFile, isFile_addFile, isFile_makedirs]
          rintro (⟨hf | hf, _⟩ | hf)
          · exact (hpw'.1 s hs).2 hf.symm
          · exact (h3 s (by simp [hs])) (Or.inl hf)
          · simp only [makedirs, addFile, List.mem_cons] at hf
            rcases hf with hf | hf
            · exact hdir r (by simp) s (by simp [hs]) hf.symm
            · exact (h3 s (by simp [hs])) (Or.inr hf))
        hpw'.2
        (fun a ha b hb => hcross a (by simp [ha]) b (by simp [hb]))
        (fun a ha b hb => hdir a (by simp [ha]) b (by simp [hb]))]
    simp [undoFoldFS]

/-- `undoLoop` only consults the strategy through `undoRec`. -/
theorem undoLoop_congr (faults : Faults) (s1 s2 : String)
    (h : undoRec faults s1 = undoRec faults s2) :
    ∀ (c : Nat) (st : UndoLoopSt), undoLoop faults s1 c st = undoLoop faults s2 c st := by
  intro c
  induction c with
  | zero => intro st; rfl
  | succ c ih =>
    intro st
    rw [undoLoop, undoLoop]
    by_cases hh : st.history = []
    · rw [dif_pos hh, dif_pos hh]
    · rw [dif_neg hh, dif_neg hh, h, ih]

/-- Characters surviving `pyStrip` were already in the string. -/
theorem mem_pyStrip {s : String} {c : Char} (h : c ∈ (pyStrip s).data) : c ∈ s.data := by
  simp only [pyStrip] at h
  rw [List.mem_reverse] at h
  have h2 := (List.dropWhile_sublist _).subset h
  rw [List.mem_reverse] at h2
  exact (List.dropWhile_sublist _).subset h2

/-! ## Claim theorems -/

/-- Claim C4 (amended): an item with empty `sourcePath` or empty
`assignedPerson` is silently skipped — the loop records **no** error entry
for it (and no moved entry) and goes on; only an item whose `sourcePath` is
not an existing regular file gets an error entry appended, after which the
batch likewise continues with the remaining items (processing a plan is the
fold of `moveStep`, so a prefix never aborts the suffix). -/
theorem claim_c4_invalid_items_amended (faults : Faults) (destRoot : String) (dryRun : Bool)
    (st : MoveSt) (item : PlanItem) :
    (item.path = "" ∨ item.person = "" → moveStep faults destRoot dryRun st item = st) ∧
    (item.path ≠ "" → item.person ≠ "" → ¬ isFile st.fs item.path →
      moveStep faults destRoot dryRun st item =
        { st with errors := st.errors ++ [⟨item.path, "源文件不存在"⟩] }) ∧
    (∀ (p1 p2 : List PlanItem) (s0 : MoveSt),
      (p1 ++ p2).foldl (moveStep faults destRoot dryRun) s0 =
        p2.foldl (moveStep faults destRoot dryRun) (p1.foldl (moveStep faults destRoot dryRun) s0)) := by
  refine ⟨?_, ?_, fun p1 p2 s0 => by rw [List.foldl_append]⟩
  · intro h
    unfold moveStep
    rw [if_pos h]
  · intro hp hq hf
    unfold moveStep
    rw [if_neg (by simp [hp, hq]), if_pos hf]

/-- Claim C4 counterexample: a plan item with empty `assignedPerson` (for an
existing source file) produces **no** entry in `errors`, contradicting the
claim that such an item appends an error entry. -/
theorem claim_c4_counterexample :
    (apiMove noFaults "/dest" [⟨"/src/a.jpg", ""⟩] false ⟨["/src/a.jpg"], ["/dest"]⟩ []).errors
      = [] ∧
    (apiMove noFaults "/dest" [⟨"/src/a.jpg", ""⟩] false ⟨["/src/a.jpg"], ["/dest"]⟩ []).moved
      = [] := by
  exact ⟨rfl, rfl⟩

/-- Claim C4 witness: the amended behavior at concrete inputs. -/
theorem claim_c4_invalid_witness :
    moveStep noFaults "/d" false ⟨⟨[], []⟩, [], []⟩ ⟨"", "P"⟩ = ⟨⟨[], []⟩, [], []⟩ ∧
    moveStep noFaults "/d" false ⟨⟨[], []⟩, [], []⟩ ⟨"/gone.jpg", "P"⟩ =
      ⟨⟨[], []⟩, [], [⟨"/gone.jpg", "源文件不存在"⟩]⟩ := by
  constructor
  · exact (claim_c4_invalid_items_amended noFaults "/d" false ⟨⟨[], []⟩, [], []⟩ ⟨"", "P"⟩).1
      (Or.inl rfl)
  · exact (claim_c4_invalid_items_amended noFaults "/d" false ⟨⟨[], []⟩, [], []⟩
      ⟨"/gone.jpg", "P"⟩).2.1 (by decide) (by decide) (by decide)

/-- Claim C5 (amended): for a non-empty `assignedPerson` the sanitized name
is never empty, and whenever the filter-and-strip result is itself non-empty
it is the sanitized name and contains only allow-listed characters.  (When
filtering strips everything, `sanitize_name` falls back to the original
`assignedPerson` — which may still contain stripped characters, see the
counterexample.) -/
theorem claim_c5_sanitize_amended (person : String) :
    (person ≠ "" → sanitize_name person ≠ "") ∧
    (pyStrip (String.mk (person.data.filter allowedChar)) ≠ "" →
      ∀ c ∈ (sanitize_name person).data, allowedChar c = true) := by
  constructor
  · intro hp
    by_cases h : pyStrip (String.mk (person.data.filter allowedChar)) = ""
    · simp [sanitize_name, h, hp]
    · simp [sanitize_name, h]
  · intro hout c hc
    rw [show sanitize_name person = pyStrip (String.mk (person.data.filter allowedChar)) from by
      simp [sanitize_name, hout]] at hc
    exact List.of_mem_filter (mem_pyStrip hc)

/-- Claim C5 counterexample: `"/"` consists only of stripped characters, so
sanitization falls back to the original name — the resulting directory name
is `"/"` itself, which still contains the non-allow-listed character. -/
theorem claim_c5_counterexample :
    sanitize_name "/" = "/" ∧ '/' ∈ (sanitize_name "/").data ∧ allowedChar '/' = false := by
  exact ⟨rfl, by decide, rfl⟩

/-- Claim C5 witness: the amended statement at the spec's example
`"Alice/Bob*"`, whose sanitization is the non-empty `"AliceBob"`. -/
theorem claim_c5_sanitize_witness :
    sanitize_name "Alice/Bob*" ≠ "" ∧
    ∀ c ∈ (sanitize_name "Alice/Bob*").data, allowedChar c = true := by
  have h := claim_c5_sanitize_amended "Alice/Bob*"
  exact ⟨h.1 (by decide), h.2 (by decide)⟩

/-- Adapter that fails on exactly one path (for the C9 counterexample). -/
def failAdapter : String → Option (List String × List String) :=
  fun p => if p = "/s/a.jpg" then none else some (["P"], ["t"])

/-- Claim C9 (amended): in batch scan mode every scanned path contributes
exactly one entry to the returned items; a path on which the metadata
adapter fails still contributes an entry, with empty people and tags (the
failure is swallowed inside `extract_people_and_tags`); and changing the
adapter's behavior on one path never affects the entries of the other paths
(the adapter is consulted exactly once per path, with no retry). -/
theorem claim_c9_scan_amended (adapter : String → Option (List String × List String))
    (paths : List String) (p : String) :
    (apiScan adapter paths).length = paths.length ∧
    (adapter p = none → p ∈ paths → (⟨p, [], []⟩ : ScanItem) ∈ apiScan adapter paths) ∧
    (∀ adapter2 : String → Option (List String × List String),
      (∀ q, q ≠ p → adapter2 q = adapter q) →
      (apiScan adapter2 paths).filter (fun it => it.path ≠ p) =
        (apiScan adapter paths).filter (fun it => it.path ≠ p)) := by
  refine ⟨by simp [apiScan], ?_, ?_⟩
  · intro hn hp
    exact List.mem_map.mpr ⟨p, hp, by simp [extract_people_and_tags, hn]⟩
  · intro adapter2 hagree
    induction paths with
    | nil => rfl
    | cons q rest ih =>
      simp only [apiScan, List.map_cons, List.filter_cons] at ih ⊢
      by_cases hq : q = p
      · subst hq
        rw [if_neg (by simp), if_neg (by simp)]
        exact ih
      · have hhead : extract_people_and_tags adapter2 q = extract_people_and_tags adapter q := by
          unfold extract_people_and_tags
          rw [hagree q hq]
        rw [hhead, ih]

/-- Claim C9 counterexample: with an adapter failing on `/s/a.jpg`, the scan
still returns an entry for that path (with empty people and tags) — the
failing path is *not* skipped, and the sibling is unaffected. -/
theorem claim_c9_counterexample :
    failAdapter "/s/a.jpg" = none ∧
    apiScan failAdapter ["/s/a.jpg", "/s/b.jpg"] =
      [⟨"/s/a.jpg", [], []⟩, ⟨"/s/b.jpg", ["P"], ["t"]⟩] ∧
    (apiScan failAdapter ["/s/a.jpg", "/s/b.jpg"]).length = 2 := by
  exact ⟨rfl, rfl, rfl⟩

/-- Claim C9 witness: the amended statement at the concrete failing adapter. -/
theorem claim_c9_scan_witness :
    (apiScan failAdapter ["/s/a.jpg", "/s/b.jpg"]).length = 2 ∧
    (⟨"/s/a.jpg", [], []⟩ : ScanItem) ∈ apiScan failAdapter ["/s/a.jpg", "/s/b.jpg"] := by
  have h := claim_c9_scan_amended failAdapter ["/s/a.jpg", "/s/b.jpg"] "/s/a.jpg"
  exact ⟨h.1, h.2.1 (by decide) (by decide)⟩

/-- Claim C10: every undo strategy other than `"unique"` (after lowercasing)
behaves exactly like `"skip"`: the whole endpoint call gives the same result
as with `"skip"`, and on a record whose original `from` location is occupied
it records an error, leaves the file at `to` (state otherwise unchanged),
and the fold simply continues with the remaining records. -/
theorem claim_c10_strategy_fallback :
    (∀ (faults : Faults) (strategy : String) (st : UndoSt) (rec : MoveRec),
      strategy ≠ "unique" →
      undoRec faults strategy st rec = undoRec faults "skip" st rec) ∧
    (∀ (faults : Faults) (count : Int) (sRaw : String) (fs : FS) (hist : List Batch),
      toLowerModel sRaw ≠ "unique" →
      apiUndoMove faults count sRaw fs hist = apiUndoMove faults count "skip" fs hist) ∧
    (∀ (faults : Faults) (strategy : String) (st : UndoSt) (rec : MoveRec),
      rec.toPath ≠ "" → rec.fromPath ≠ "" → pathExists st.fs rec.toPath →
      pathExists st.fs rec.fromPath → strategy ≠ "unique" →
      undoRec faults strategy st rec =
        { st with errors := st.errors ++ [⟨rec.fromPath, "源位置已存在同名文件，已跳过"⟩] }) := by
  have hbase : ∀ (faults : Faults) (strategy : String) (st : UndoSt) (rec : MoveRec),
      strategy ≠ "unique" →
      undoRec faults strategy st rec = undoRec faults "skip" st rec := by
    intro faults strategy st rec h
    unfold undoRec
    rw [if_neg h, if_neg (show ("skip" : String) ≠ "unique" from by decide)]
  refine ⟨hbase, ?_, ?_⟩
  · intro faults count sRaw fs hist h
    have hfun : undoRec faults (toLowerModel sRaw) = undoRec faults "skip" :=
      funext fun st => funext fun rec => hbase faults (toLowerModel sRaw) st rec h
    unfold apiUndoMove
    split
    · rfl
    · rw [show toLowerModel "skip" = "skip" from by decide,
        undoLoop_congr faults (toLowerModel sRaw) "skip" hfun]
  · intro faults strategy st rec h1 h2 h3 h4 h5
    unfold undoRec
    rw [if_neg (by simp [h1, h2]), if_neg (not_not_intro h3), if_pos h4, if_neg h5]

/-- Claim C10 witness: the strategy `"MERGE"` — outside the documented set —
acts exactly like `"skip"` on a conflicting record. -/
theorem claim_c10_strategy_witness :
    apiUndoMove noFaults 1 "MERGE" ⟨["/x.jpg", "/orig.jpg"], []⟩
        [⟨[⟨"/orig.jpg", "/x.jpg"⟩], [], "/d"⟩] =
      apiUndoMove noFaults 1 "skip" ⟨["/x.jpg", "/orig.jpg"], []⟩
        [⟨[⟨"/orig.jpg", "/x.jpg"⟩], [], "/d"⟩] ∧
    undoRec noFaults "merge" ⟨⟨["/x.jpg", "/orig.jpg"], []⟩, [], []⟩ ⟨"/orig.jpg", "/x.jpg"⟩ =
      ⟨⟨["/x.jpg", "/orig.jpg"], []⟩, [],
        [⟨"/orig.jpg", "源位置已存在同名文件，已跳过"⟩]⟩ := by
  constructor
  · exact claim_c10_strategy_fallback.2.1 noFaults 1 "MERGE" ⟨["/x.jpg", "/orig.jpg"], []⟩
      [⟨[⟨"/orig.jpg", "/x.jpg"⟩], [], "/d"⟩] (by decide)
  · exact claim_c10_strategy_fallback.2.2 noFaults "merge"
      ⟨⟨["/x.jpg", "/orig.jpg"], []⟩, [], []⟩ ⟨"/orig.jpg", "/x.jpg"⟩
      (by decide) (by decide) (by decide) (by decide) (by decide)

/-- Claim C6: the ledger never exceeds `MOVE_HISTORY_MAX = 20` batches after
a record operation; eviction keeps a suffix of the appended ledger (dropping
the oldest batches from the head, the new batch always surviving at the
tail); a batch is appended only for a non-dry-run call with at least one
successful move, and dry-run or all-failed calls leave the ledger unchanged. -/
theorem claim_c6_history_bound (hist : List Batch) (dryRun : Bool)
    (moved : List MoveRec) (errors : List ErrRec) (destRoot : String)
    (hlen : hist.length ≤ MOVE_HISTORY_MAX) :
    MOVE_HISTORY_MAX = 20 ∧
    (recordHistory hist dryRun moved errors destRoot).length ≤ MOVE_HISTORY_MAX ∧
    (dryRun = true ∨ moved = [] → recordHistory hist dryRun moved errors destRoot = hist) ∧
    (dryRun = false → moved ≠ [] →
      (recordHistory hist dryRun moved errors destRoot).IsSuffix
        (hist ++ [⟨moved, errors, destRoot⟩]) ∧
      (recordHistory hist dryRun moved errors destRoot).getLast? =
        some ⟨moved, errors, destRoot⟩) := by
  unfold MOVE_HISTORY_MAX at hlen
  refine ⟨rfl, ?_, ?_, ?_⟩
  · unfold recordHistory MOVE_HISTORY_MAX
    split
    · split
      · next h2 =>
        simp only [List.length_drop, List.length_append, List.length_singleton] at h2 ⊢
        omega
      · next h2 =>
        simp only [List.length_append, List.length_singleton] at h2 ⊢
        omega
    · exact hlen
  · intro h
    unfold recordHistory
    rw [if_neg (by rcases h with h | h <;> simp [h])]
  · intro hd hm
    unfold recordHistory MOVE_HISTORY_MAX
    rw [if_pos ⟨by simp [hd], hm⟩]
    split
    · next h2 =>
      simp only [List.length_append, List.length_singleton] at h2
      constructor
      · exact List.drop_suffix _ _
      · rw [List.drop_append_of_le_length
            (by simp only [List.length_append, List.length_singleton]; omega),
          List.getLast?_concat]
    · exact ⟨List.suffix_refl _, by rw [List.getLast?_concat]⟩

/-- Claim C6 witness: recording one successful non-dry-run batch into an
empty ledger keeps the bound and puts the batch at the tail. -/
theorem claim_c6_history_witness :
    (recordHistory [] false [⟨"/a.jpg", "/d/P/a.jpg"⟩] [] "/d").length ≤ MOVE_HISTORY_MAX ∧
    (recordHistory [] false [⟨"/a.jpg", "/d/P/a.jpg"⟩] [] "/d").getLast? =
      some ⟨[⟨"/a.jpg", "/d/P/a.jpg"⟩], [], "/d"⟩ := by
  have h := claim_c6_history_bound [] false [⟨"/a.jpg", "/d/P/a.jpg"⟩] [] "/d" (by decide)
  exact ⟨h.2.1, (h.2.2.2 rfl (by decide)).2⟩

/-- `poppedRecords` of an empty ledger is empty for every count. -/
theorem poppedRecords_nil (c : Nat) : poppedRecords c [] = [] := by
  cases c <;> simp [poppedRecords]

/-- Claim C8: an undo call with positive count on an empty ledger is a
successful no-op (message response, empty `undone`/`errors`, filesystem and
ledger untouched), and a count exceeding the ledger size undoes exactly the
available batches, reporting that true number in `undoneBatches`. -/
theorem claim_c8_undo_empty_and_excess (faults : Faults) (count : Int)
    (strategyRaw : String) (fs : FS) (hist : List Batch) (hc : 0 < count) :
    (hist = [] →
      apiUndoMove faults count strategyRaw fs hist =
        { ok := true, error := none, undone := [], errors := [], undoneBatches := none,
          message := some "无可撤销的历史记录", fs := fs, history := [] }) ∧
    (hist ≠ [] → (hist.length : Int) < count →
      (apiUndoMove faults count strategyRaw fs hist).undoneBatches = some hist.length ∧
      (apiUndoMove faults count strategyRaw fs hist).history = [] ∧
      (apiUndoMove faults count strategyRaw fs hist).ok = true) := by
  constructor
  · intro h
    subst h
    unfold apiUndoMove
    rw [if_neg (by omega), undoLoop_spec]
    simp [poppedRecords_nil, apiUndoResp]
  · intro h hlt
    have hpos : 0 < hist.length := List.length_pos.mpr h
    have hmin : min count.toNat hist.length = hist.length := by omega
    unfold apiUndoMove
    rw [if_neg (by omega), undoLoop_spec]
    unfold apiUndoResp
    simp only [hmin]
    rw [if_neg (by omega)]
    refine ⟨by simp, by simp, rfl⟩

/-- Claim C8 witness: the empty-ledger no-op and the excess-count case at
concrete inputs. -/
theorem claim_c8_undo_witness :
    apiUndoMove noFaults 5 "unique" ⟨["/a.jpg"], []⟩ [] =
      { ok := true, error := none, undone := [], errors := [], undoneBatches := none,
        message := some "无可撤销的历史记录", fs := ⟨["/a.jpg"], []⟩, history := [] } ∧
    (apiUndoMove noFaults 5 "unique" ⟨["/d/P/a.jpg"], ["/d"]⟩
        [⟨[⟨"/s/a.jpg", "/d/P/a.jpg"⟩], [], "/d"⟩]).undoneBatches = some 1 ∧
    (apiUndoMove noFaults 5 "unique" ⟨["/d/P/a.jpg"], ["/d"]⟩
        [⟨[⟨"/s/a.jpg", "/d/P/a.jpg"⟩], [], "/d"⟩]).history = [] := by
  constructor
  · exact (claim_c8_undo_empty_and_excess noFaults 5 "unique" ⟨["/a.jpg"], []⟩ []
      (by omega)).1 rfl
  · have h := (claim_c8_undo_empty_and_excess noFaults 5 "unique" ⟨["/d/P/a.jpg"], ["/d"]⟩
      [⟨[⟨"/s/a.jpg", "/d/P/a.jpg"⟩], [], "/d"⟩] (by omega)).2 (by simp) (by simp)
    exact ⟨h.1, h.2.1⟩

/-- Claim C2: two plan items whose candidate targets both resolve to
`/dest/Person/photo.jpg`, processed in input order in a non-dry-run call,
land at `/dest/Person/photo.jpg` and `/dest/Person/photo (1).jpg`; and in
general the collision probe of `unique_target` never returns a path that
exists on the filesystem it was consulted about, so no existing file is
ever chosen as a copy target. -/
theorem claim_c2_collision_probing :
    (apiMove noFaults "/dest" [⟨"/a/photo.jpg", "Person"⟩, ⟨"/b/photo.jpg", "Person"⟩] false
        ⟨["/a/photo.jpg", "/b/photo.jpg"], ["/dest"]⟩ []).moved =
      [⟨"/a/photo.jpg", "/dest/Person/photo.jpg"⟩,
       ⟨"/b/photo.jpg", "/dest/Person/photo (1).jpg"⟩] ∧
    (apiMove noFaults "/dest" [⟨"/a/photo.jpg", "Person"⟩, ⟨"/b/photo.jpg", "Person"⟩] false
        ⟨["/a/photo.jpg", "/b/photo.jpg"], ["/dest"]⟩ []).errors = [] ∧
    (∀ (fs : FS) (p : String), ¬ pathExists fs (unique_target fs p)) := by
  exact ⟨by decide, by decide, unique_target_not_exists⟩

/-- Claim C3 counterexample: with two colliding items and an absent
destination root, the dry run (i) mutates the filesystem — it creates the
destination root — and (ii) returns a `moved` list different from the real
run's (both dry entries claim `/dest2/Person/photo.jpg`, while the real run
disambiguates the second). -/
theorem claim_c3_counterexample :
    (apiMove noFaults "/dest2" [⟨"/a/photo.jpg", "Person"⟩, ⟨"/b/photo.jpg", "Person"⟩] true
        ⟨["/a/photo.jpg", "/b/photo.jpg"], []⟩ []).fs ≠
      (⟨["/a/photo.jpg", "/b/photo.jpg"], []⟩ : FS) ∧
    (apiMove noFaults "/dest2" [⟨"/a/photo.jpg", "Person"⟩, ⟨"/b/photo.jpg", "Person"⟩] true
        ⟨["/a/photo.jpg", "/b/photo.jpg"], []⟩ []).moved ≠
      (apiMove noFaults "/dest2" [⟨"/a/photo.jpg", "Person"⟩, ⟨"/b/photo.jpg", "Person"⟩] false
        ⟨["/a/photo.jpg", "/b/photo.jpg"], []⟩ []).moved := by
  exact ⟨by decide, by decide⟩

/-- Claim C3 (amended): a dry run performs no filesystem mutation *provided
the destination root already exists* (otherwise the endpoint creates it even
in a dry run), and for single-item plans (fault-free) the dry run returns
exactly the real run's `moved` and `errors` lists; multi-item plans can
diverge because the real run's collision probing sees earlier items'
effects, see the counterexample. -/
theorem claim_c3_dry_run_amended :
    (∀ (faults : Faults) (destRoot : String) (plan : List PlanItem) (fs : FS)
        (hist : List Batch),
      pathExists fs destRoot →
      (apiMove faults destRoot plan true fs hist).fs = fs) ∧
    (∀ (destRoot : String) (item : PlanItem) (fs : FS) (hist : List Batch),
      (apiMove noFaults destRoot [item] true fs hist).moved =
        (apiMove noFaults destRoot [item] false fs hist).moved ∧
      (apiMove noFaults destRoot [item] true fs hist).errors =
        (apiMove noFaults destRoot [item] false fs hist).errors) := by
  constructor
  · intro faults destRoot plan fs hist hex
    by_cases hd : destRoot = ""
    · unfold apiMove
      rw [if_pos hd]
    · unfold apiMove
      rw [if_neg hd, if_pos hex]
      unfold apiMoveResp
      simp [moveFold_dry_fs]
  · intro destRoot item fs hist
    by_cases hd : destRoot = ""
    · unfold apiMove
      rw [if_pos hd, if_pos hd]
      exact ⟨rfl, rfl⟩
    · unfold apiMove
      rw [if_neg hd, if_neg hd]
      unfold apiMoveResp
      simp only [List.foldl_cons, List.foldl_nil]
      exact moveStep_dry_real destRoot _ item

/-- Claim C3 witness: the amended statement at a concrete single-item call
with an existing destination root. -/
theorem claim_c3_dry_run_witness :
    (apiMove noFaults "/dest" [⟨"/a/photo.jpg", "Person"⟩] true
        ⟨["/a/photo.jpg"], ["/dest"]⟩ []).fs = ⟨["/a/photo.jpg"], ["/dest"]⟩ ∧
    (apiMove noFaults "/dest" [⟨"/a/photo.jpg", "Person"⟩] true
        ⟨["/a/photo.jpg"], ["/dest"]⟩ []).moved =
      (apiMove noFaults "/dest" [⟨"/a/photo.jpg", "Person"⟩] false
        ⟨["/a/photo.jpg"], ["/dest"]⟩ []).moved := by
  exact ⟨claim_c3_dry_run_amended.1 noFaults "/dest" [⟨"/a/photo.jpg", "Person"⟩]
      ⟨["/a/photo.jpg"], ["/dest"]⟩ [] (by decide),
    (claim_c3_dry_run_amended.2 "/dest" ⟨"/a/photo.jpg", "Person"⟩
      ⟨["/a/photo.jpg"], ["/dest"]⟩ []).1⟩

/-- Claim C1: in both the move and the undo executor, when the copy
succeeded but the subsequent delete of the source fails, the rollback
deletes the just-created copy and the original delete failure becomes the
item's error: the `moved` (resp. `undone`) list gains no entry, the copy is
gone from the filesystem, and the source file is still in place — never two
live copies with one reported as moved. -/
theorem claim_c1_rollback_on_delete_failure :
    (∀ (faults : Faults) (destRoot : String) (st : MoveSt) (item : PlanItem)
        (targetPath : String),
      targetPath = unique_target st.fs
        (pathJoin (pathJoin destRoot (sanitize_name item.person)) (baseName item.path)) →
      item.path ≠ "" → item.person ≠ "" → isFile st.fs item.path →
      item.path ≠ targetPath →
      faults.copyFails item.path targetPath = false →
      faults.removeFails item.path = true →
      faults.removeFails targetPath = false →
      (moveStep faults destRoot false st item).moved = st.moved ∧
      (moveStep faults destRoot false st item).errors =
        st.errors ++ [⟨item.path, removeErrMsg item.path⟩] ∧
      ¬ isFile (moveStep faults destRoot false st item).fs targetPath ∧
      isFile (moveStep faults destRoot false st item).fs item.path) ∧
    (∀ (faults : Faults) (strategy : String) (st : UndoSt) (rec : MoveRec),
      rec.toPath ≠ "" → rec.fromPath ≠ "" → isFile st.fs rec.toPath →
      ¬ pathExists st.fs rec.fromPath →
      faults.copyFails rec.toPath rec.fromPath = false →
      faults.removeFails rec.toPath = true →
      faults.removeFails rec.fromPath = false →
      (undoRec faults strategy st rec).undone = st.undone ∧
      (undoRec faults strategy st rec).errors =
        st.errors ++ [⟨rec.toPath, removeErrMsg rec.toPath⟩] ∧
      ¬ isFile (undoRec faults strategy st rec).fs rec.fromPath ∧
      isFile (undoRec faults strategy st rec).fs rec.toPath) := by
  constructor
  · intro faults destRoot st item targetPath htp h1 h2 h3 h4 h5 h6 h7
    have hstep : moveStep faults destRoot false st item =
        { st with
          fs := removeFile
            (addFile (makedirs st.fs (pathJoin destRoot (sanitize_name item.person))) targetPath)
            targetPath,
          errors := st.errors ++ [⟨item.path, removeErrMsg item.path⟩] } := by
      simp only [moveStep]
      rw [if_neg (by simp [h1, h2]), if_neg (not_not_intro h3)]
      rw [← htp]
      simp [h4, h5, h6, h7]
    rw [hstep]
    refine ⟨rfl, rfl, ?_, ?_⟩
    · simp [isFile_removeFile]
    · simp only [isFile_removeFile, isFile_addFile, isFile_makedirs]
      exact ⟨Or.inr h3, h4⟩
  · intro faults strategy st rec h1 h2 h3 h4 h5 h6 h7
    have hstep : undoRec faults strategy st rec =
        { st with
          fs := removeFile (addFile (makedirs st.fs (dirName rec.fromPath)) rec.fromPath)
            rec.fromPath,
          errors := st.errors ++ [⟨rec.toPath, removeErrMsg rec.toPath⟩] } := by
      unfold undoRec undoRestore
      rw [if_neg (by simp [h1, h2]),
        if_neg (not_not_intro (show pathExists st.fs rec.toPath from Or.inl h3)), if_neg h4]
      simp [h5, h6, h7]
    rw [hstep]
    refine ⟨rfl, rfl, ?_, ?_⟩
    · simp [isFile_removeFile]
    · simp only [isFile_removeFile, isFile_addFile, isFile_makedirs]
      exact ⟨Or.inr h3, fun hh => h4 (Or.inl (hh ▸ h3))⟩

/-- Fault oracle of the C1 witness: only the removal of `/a/x.jpg` fails. -/
def rollbackFaults : Faults := ⟨fun _ _ => false, fun p => p = "/a/x.jpg"⟩

/-- Claim C1 witness: both rollback branches at concrete inputs. -/
theorem claim_c1_rollback_witness :
    ((moveStep rollbackFaults "/d" false ⟨⟨["/a/x.jpg"], ["/d"]⟩, [], []⟩
        ⟨"/a/x.jpg", "P"⟩).moved = [] ∧
      ¬ isFile (moveStep rollbackFaults "/d" false ⟨⟨["/a/x.jpg"], ["/d"]⟩, [], []⟩
        ⟨"/a/x.jpg", "P"⟩).fs "/d/P/x.jpg") ∧
    ((undoRec rollbackFaults "unique" ⟨⟨["/a/x.jpg"], []⟩, [], []⟩
        ⟨"/orig/y.jpg", "/a/x.jpg"⟩).undone = [] ∧
      isFile (undoRec rollbackFaults "unique" ⟨⟨["/a/x.jpg"], []⟩, [], []⟩
        ⟨"/orig/y.jpg", "/a/x.jpg"⟩).fs "/a/x.jpg") := by
  constructor
  · have h := claim_c1_rollback_on_delete_failure.1 rollbackFaults "/d"
      ⟨⟨["/a/x.jpg"], ["/d"]⟩, [], []⟩ ⟨"/a/x.jpg", "P"⟩ "/d/P/x.jpg"
      (by decide) (by decide) (by decide) (by decide) (by decide) (by decide) (by decide)
      (by decide)
    exact ⟨h.1, h.2.2.1⟩
  · have h := claim_c1_rollback_on_delete_failure.2 rollbackFaults "unique"
      ⟨⟨["/a/x.jpg"], []⟩, [], []⟩ ⟨"/orig/y.jpg", "/a/x.jpg"⟩
      (by decide) (by decide) (by decide) (by decide) (by decide) (by decide) (by decide)
    exact ⟨h.1, h.2.2.2⟩

/-- Claim C7: the undo loop pops batches from the ledger's tail,
most-recent-first, never returning a popped batch even when records fail
(`history` becomes a `take`-prefix, regardless of faults and errors); the
records it attempts are exactly the popped batches most recent first, each
batch's `moved` list in reverse insertion order; and in a fault-free,
conflict-free run the `undone` list lists those restorations in exactly that
order — so across two batches the most recently moved file is restored
first. -/
theorem claim_c7_undo_order :
    (∀ (faults : Faults) (strategy : String) (c : Nat) (st : UndoLoopSt),
      (undoLoop faults strategy c st).history =
        st.history.take (st.history.length - min c st.history.length) ∧
      (undoLoop faults strategy c st).undoneBatches =
        st.undoneBatches + min c st.history.length) ∧
    (∀ (c : Nat) (hist : List Batch),
      poppedRecords c hist =
        (((hist.drop (hist.length - min c hist.length)).reverse).map
          (fun b => b.moved.reverse)).flatten) ∧
    (∀ (strategy : String) (c : Nat) (fs : FS) (hist : List Batch),
      (∀ r ∈ poppedRecords c hist, r.toPath ≠ "" ∧ r.fromPath ≠ "") →
      (∀ r ∈ poppedRecords c hist, isFile fs r.toPath) →
      (∀ r ∈ poppedRecords c hist, ¬ pathExists fs r.fromPath) →
      (poppedRecords c hist).Pairwise
        (fun r s => r.toPath ≠ s.toPath ∧ r.fromPath ≠ s.fromPath) →
      (∀ r ∈ poppedRecords c hist, ∀ s ∈ poppedRecords c hist, r.fromPath ≠ s.toPath) →
      (∀ r ∈ poppedRecords c hist, ∀ s ∈ poppedRecords c hist,
        dirName r.fromPath ≠ s.fromPath) →
      (undoLoop noFaults strategy c ⟨fs, [], [], hist, 0⟩).undone =
        (poppedRecords c hist).map (fun r => ⟨r.toPath, r.fromPath⟩) ∧
      (undoLoop noFaults strategy c ⟨fs, [], [], hist, 0⟩).errors = []) := by
  refine ⟨fun faults strategy c st => ⟨by rw [undoLoop_spec], by rw [undoLoop_spec]⟩,
    poppedRecords_flatten, ?_⟩
  intro strategy c fs hist hne hto hfrom hpw hcross hdir
  rw [undoLoop_spec]
  have hfold := undoFold_success strategy (poppedRecords c hist) ⟨fs, [], []⟩
    hne hto hfrom hpw hcross hdir
  constructor
  · show (List.foldl (undoRec noFaults strategy) ⟨fs, [], []⟩ (poppedRecords c hist)).undone = _
    rw [hfold]
    simp
  · show (List.foldl (undoRec noFaults strategy) ⟨fs, [], []⟩ (poppedRecords c hist)).errors = _
    rw [hfold]

/-- Claim C7 witness: undoing two one-record batches restores the most
recently moved file first, with no errors and an emptied ledger. -/
theorem claim_c7_undo_order_witness :
    (undoLoop noFaults "unique" 2 ⟨⟨["/d/P/a.jpg", "/d/P/b.jpg"], ["/d", "/d/P"]⟩, [], [],
        [⟨[⟨"/s/a.jpg", "/d/P/a.jpg"⟩], [], "/d"⟩,
         ⟨[⟨"/t/b.jpg", "/d/P/b.jpg"⟩], [], "/d"⟩], 0⟩).undone =
      [⟨"/d/P/b.jpg", "/t/b.jpg"⟩, ⟨"/d/P/a.jpg", "/s/a.jpg"⟩] ∧
    (undoLoop noFaults "unique" 2 ⟨⟨["/d/P/a.jpg", "/d/P/b.jpg"], ["/d", "/d/P"]⟩, [], [],
        [⟨[⟨"/s/a.jpg", "/d/P/a.jpg"⟩], [], "/d"⟩,
         ⟨[⟨"/t/b.jpg", "/d/P/b.jpg"⟩], [], "/d"⟩], 0⟩).errors = [] := by
  have h := claim_c7_undo_order.2.2 "unique" 2 ⟨["/d/P/a.jpg", "/d/P/b.jpg"], ["/d", "/d/P"]⟩
    [⟨[⟨"/s/a.jpg", "/d/P/a.jpg"⟩], [], "/d"⟩, ⟨[⟨"/t/b.jpg", "/d/P/b.jpg"⟩], [], "/d"⟩]
    (by decide) (by decide) (by decide) (by decide) (by decide) (by decide)
  refine ⟨?_, h.2⟩
  rw [h.1]
  rfl

end Tag2Dir
